import Mathlib

/-!
Verification of the geo-tiled fetch-and-aggregate pipeline in `mapsDB.py`.

Shallow embedding conventions:
* Python floats are modelled as exact rationals (`ℚ`); the spec's
  "to floating-point tolerance" claims are settled at the ideal arithmetic.
* Network behaviour is a parameter: a response function mapping a mirror and
  an attempt number to either a parsed JSON payload or a caught request error.
* `float(...)` parsing of the numeric strings in a geocoder response is
  abstracted by a parameter `pfloat : String → ℚ` (the claims presuppose the
  strings are numeric, so parsing never fails on the inputs considered).
* Exceptions are modelled with `Except` / explicit result variants.
-/

/-- The fixed, priority-ordered Overpass mirror list from the configuration
block of `mapsDB.py`. -/
def OVERPASS_MIRRORS : List String :=
  ["https://overpass-api.de/api/interpreter",
   "https://lz4.overpass-api.de/api/interpreter",
   "https://overpass.openstreetmap.fr/api/interpreter",
   "https://overpass.kumi.systems/api/interpreter"]

/-- `TILE_NX = 6` from the configuration block. -/
def TILE_NX : Nat := 6

/-- `TILE_NY = 6` from the configuration block. -/
def TILE_NY : Nat := 6

/-- `MAX_RETRIES = 3` from the configuration block. -/
def MAX_RETRIES : Nat := 3

/-- `FORCE_REWRITE = False` from the configuration block. -/
def FORCE_REWRITE : Bool := false

/-- A bounding box, in the tuple order `(south, west, north, east)` used
throughout `mapsDB.py`. -/
structure BBox where
  south : ℚ
  west : ℚ
  north : ℚ
  east : ℚ
deriving Repr, DecidableEq

/-- `split_bbox(bbox, nx, ny)` (mapsDB.py lines 119-131): equal-interval grid
split, outer loop `i in range(ny)` over rows, inner loop `j in range(nx)` over
columns, appending `(s, w, n, e)` boxes in that order. -/
def split_bbox (b : BBox) (nx ny : Nat) : List BBox :=
  let lat_step : ℚ := (b.north - b.south) / (ny : ℚ)
  let lon_step : ℚ := (b.east - b.west) / (nx : ℚ)
  (List.range ny).flatMap fun (i : Nat) =>
    (List.range nx).map fun (j : Nat) =>
      ⟨b.south + (i : ℚ) * lat_step, b.west + (j : ℚ) * lon_step,
       b.south + ((i : ℚ) + 1) * lat_step, b.west + ((j : ℚ) + 1) * lon_step⟩

/-- `split_bbox` as actually callable from Python with arbitrary integer grid
dimensions.  The Python body computes `lat_step = (north-south)/ny` first and
`lon_step = (east-west)/nx` second, so a zero dimension raises
`ZeroDivisionError`; a negative dimension makes the corresponding `range`
empty, so the function silently returns a (possibly empty) list.  There is no
validation and no `ConfigError` anywhere in `mapsDB.py`. -/
def split_bbox_py (b : BBox) (nx ny : Int) : Except String (List BBox) :=
  if ny = 0 then .error "ZeroDivisionError"
  else if nx = 0 then .error "ZeroDivisionError"
  else .ok (split_bbox b nx.toNat ny.toNat)

/-- One mirror's inner retry loop `for attempt in range(1, max_retries+1)`
(mapsDB.py lines 149-163).  `respm a` is the outcome of the HTTP POST on
attempt `a`: `.ok v` models a successful response with parsed JSON `v`,
`.error e` models a caught `HTTPError` / `RequestException`.  Returns
`(result, last_exc, attempts made)`: on the first success the loop returns
immediately; every failed attempt overwrites `last_exc`. -/
def try_attempts {ε α : Type} (respm : Nat → Except ε α) :
    List Nat → Option ε → Option α × Option ε × List Nat
  | [], last => (none, last, [])
  | a :: rest, last =>
    match respm a with
    | .ok v => (some v, last, [a])
    | .error e =>
      let r := try_attempts respm rest (some e)
      (r.1, r.2.1, a :: r.2.2)

/-- The outer mirror loop of `query_overpass_with_mirrors` (mapsDB.py lines
145-165), instrumented with the trace of `(mirror, attempt)` pairs actually
tried.  Mirrors are visited in list order; each mirror gets attempts
`1..max_retries`; a success short-circuits; after the last mirror the
function raises `RuntimeError(...) from last_exc`, modelled as
`.error last_exc`. -/
def query_mirrors {μ ε α : Type} (resp : μ → Nat → Except ε α) (max_retries : Nat) :
    List μ → Option ε → Except (Option ε) α × List (μ × Nat)
  | [], last => (.error last, [])
  | m :: ms, last =>
    let r := try_attempts (resp m) (List.range' 1 max_retries) last
    match r.1 with
    | some v => (.ok v, r.2.2.map fun a => (m, a))
    | none =>
      let rest := query_mirrors resp max_retries ms r.2.1
      (rest.1, (r.2.2.map fun a => (m, a)) ++ rest.2)

/-- `query_overpass_with_mirrors` applied to the configured mirror list, with
`last_exc` initialised to `None`. -/
def query_overpass_with_mirrors {ε α : Type} (resp : String → Nat → Except ε α)
    (max_retries : Nat := MAX_RETRIES) : Except (Option ε) α × List (String × Nat) :=
  query_mirrors resp max_retries OVERPASS_MIRRORS none

/-- A tag dictionary: string keys to string values (first binding wins, as in
a Python dict built from JSON). -/
abbrev Tags : Type := List (String × String)

/-- `tags.get(k)`: `some v` when the key is present, `none` otherwise. -/
def tags_get (t : Tags) (k : String) : Option String :=
  (List.find? (fun p => p.1 == k) t).map Prod.snd

/-- A raw Overpass element.  `type` and `id` model `el.get("type")` /
`el.get("id")` (absent keys give `none`).  `tags` models the `"tags"` entry:
`none` = key absent, `some none` = JSON null, `some (some t)` = a tag dict. -/
structure RawElement where
  type : Option String
  id : Option Int
  tags : Option (Option Tags)
deriving Repr, DecidableEq

/-- The deduplication key `(el.get("type"), el.get("id"))` used by
`dedupe_elements`. -/
def osm_key (el : RawElement) : Option String × Option Int :=
  (el.type, el.id)

/-- The loop body of `dedupe_elements` (mapsDB.py lines 167-176), with the
`seen` set made explicit as a list of keys. -/
def dedupe_go (seen : List (Option String × Option Int)) :
    List RawElement → List RawElement
  | [] => []
  | el :: rest =>
    if osm_key el ∈ seen then dedupe_go seen rest
    else el :: dedupe_go (osm_key el :: seen) rest

/-- `dedupe_elements(elems)`: stable first-occurrence dedupe by `(type, id)`. -/
def dedupe_elements (elems : List RawElement) : List RawElement :=
  dedupe_go [] elems

/-- Python `x or y` on string-or-None values: `y` when `x` is `None` or the
empty string (falsy), else `x`. -/
def pyOr (a b : Option String) : Option String :=
  match a with
  | some s => if s = "" then b else some s
  | none => b

/-- Python `x or d` where the right operand is a string default, as in
`tags.get(...) or ""`. -/
def pyOrD (a : Option String) (d : String) : String :=
  match a with
  | some s => if s = "" then d else s
  | none => d

/-- The fixed ordered address-component key list from `extract_shop_record`. -/
def addr_keys : List String :=
  ["addr:street", "addr:housenumber", "addr:city", "addr:postcode", "addr:state"]

/-- The `addr_parts` accumulation loop: keep `tags.get(k)` when it is truthy
(present and non-empty), in the fixed key order. -/
def addr_parts (t : Tags) : List String :=
  addr_keys.filterMap fun k =>
    match tags_get t k with
    | some v => if v = "" then none else some v
    | none => none

/-- The effective tag dict of an element: `el.get("tags", {}) or {}`
(absent key, JSON null, and the empty dict all collapse to `{}`). -/
def eff_tags (el : RawElement) : Tags :=
  match el.tags with
  | some (some t) => t
  | _ => ([] : Tags)

/-- The CSV row shape built by `extract_shop_record` (mapsDB.py lines
190-199): exactly the eight keys `city, osm_type, osm_id, name, address,
phone, email, website`, the last five always strings. -/
structure ShopRecord where
  city : String
  osm_type : Option String
  osm_id : Option Int
  name : String
  address : String
  phone : String
  email : String
  website : String
deriving Repr, DecidableEq

/-- `extract_shop_record(el, city_name)` (mapsDB.py lines 178-199), translated
clause by clause: Python `or`-chains become `pyOr`/`pyOrD`, `tags.get("name","")`
becomes `getD`, and the address join falls back to `addr:full`. -/
def extract_shop_record (el : RawElement) (city_name : String) : ShopRecord :=
  let tags := eff_tags el
  let name := (tags_get tags "name").getD ""
  let phone := pyOrD (pyOr (pyOr (tags_get tags "contact:phone") (tags_get tags "phone"))
      (tags_get tags "telephone")) ""
  let email := pyOrD (pyOr (tags_get tags "contact:email") (tags_get tags "email")) ""
  let website := pyOrD (pyOr (tags_get tags "website") (tags_get tags "contact:website")) ""
  let address :=
    if (addr_parts tags).isEmpty then pyOrD (tags_get tags "addr:full") ""
    else String.intercalate ", " (addr_parts tags)
  { city := city_name, osm_type := el.type, osm_id := el.id,
    name := name, address := address, phone := phone, email := email,
    website := website }

/-- One hit of a Nominatim `/search` JSON response: the `boundingbox` array of
strings, and the optional `display_name`. -/
structure NominatimHit where
  boundingbox : List String
  display_name : Option String

/-- The outcome of `nominatim_bbox`: `noMatch` models `return None` on an
empty response list; `ok south west north east label` models the returned
tuple `(south, west, north, east, display_name)`; `indexError` models the
`IndexError` Python would raise on a `boundingbox` shorter than four
entries. -/
inductive NominatimResult where
  | noMatch
  | ok (south west north east : ℚ) (display_name : String)
  | indexError
deriving Repr, DecidableEq

/-- `nominatim_bbox` (mapsDB.py lines 104-117) on an already-parsed JSON
response `j`: empty list returns `None`; otherwise
`south = float(bb[0]); north = float(bb[1]); west = float(bb[2]);
east = float(bb[3])` and the result tuple is
`(south, west, north, east, display_name)`.  `pfloat` abstracts `float`. -/
def nominatim_bbox (pfloat : String → ℚ) (j : List NominatimHit) : NominatimResult :=
  match j with
  | [] => .noMatch
  | hit :: _ =>
    match hit.boundingbox.get? 0, hit.boundingbox.get? 1,
          hit.boundingbox.get? 2, hit.boundingbox.get? 3 with
    | some b0, some b1, some b2, some b3 =>
      .ok (pfloat b0) (pfloat b2) (pfloat b1) (pfloat b3)
        (hit.display_name.getD "")
    | _, _, _, _ => .indexError

/-- One entry of `failed_tiles`: the dict
`{"idx": idx, "bbox": tb, "error": str(ex)}` appended in `process_city`. -/
structure FailedTile where
  idx : Nat
  bbox : BBox
  error : String
deriving Repr, DecidableEq

/-- The tile loop of `process_city` (mapsDB.py lines 222-235): iterate the
enumerated tile list; a successful fetch extends `all_elements`, a failed one
appends a `FailedTile`; failures never abort the loop.  `fetch idx` abstracts
`query_overpass_with_mirrors(query_body)` followed by `data.get("elements", [])`
for the tile at index `idx`. -/
def fetch_tiles (fetch : Nat → Except String (List RawElement)) :
    List (Nat × BBox) → List RawElement × List FailedTile
  | [] => ([], [])
  | (idx, tb) :: rest =>
    let r := fetch_tiles fetch rest
    match fetch idx with
    | .ok elems => (elems ++ r.1, r.2)
    | .error ex => (r.1, ⟨idx, tb, ex⟩ :: r.2)

/-- The terminal outcome of `process_city` for one region:
`skipExisting` = resume-skip (output file already present);
`failedResolve` = Nominatim lookup failed or returned no match (caught,
region abandoned, nothing written);
`doneEmpty elements failed_tiles` = zero records: the debug JSON payload
`{"elements": ..., "failed_tiles": ...}` is written and no CSV is produced;
`done rows` = the normal CSV output rows. -/
inductive CityOutcome where
  | skipExisting
  | failedResolve
  | doneEmpty (elements : List RawElement) (failed_tiles : List FailedTile)
  | done (rows : List ShopRecord)
deriving Repr, DecidableEq

/-- `process_city(city_name)` (mapsDB.py lines 201-250) as a function of its
external interactions: `file_exists` is the resume check on the output path,
`geo` the Nominatim response, `fetch` the per-tile Overpass outcome.
A `None` (or too-short) geocoder result makes the tuple unpacking raise inside
the `try`, which is caught and the region abandoned. -/
def process_city (file_exists : Bool) (pfloat : String → ℚ)
    (geo : List NominatimHit) (fetch : Nat → Except String (List RawElement))
    (city_name : String) : CityOutcome :=
  if file_exists && !FORCE_REWRITE then .skipExisting
  else
    match nominatim_bbox pfloat geo with
    | .noMatch => .failedResolve
    | .indexError => .failedResolve
    | .ok s w n e _ =>
      let tiles := split_bbox ⟨s, w, n, e⟩ TILE_NX TILE_NY
      let fr := fetch_tiles fetch tiles.enum
      let all_elements := dedupe_elements fr.1
      let records := all_elements.map fun el => extract_shop_record el city_name
      if records.isEmpty then .doneEmpty all_elements fr.2
      else .done records

/-! ### Spec-side definitions (for refinement claims) -/

/-- Modelled from the spec (§4.5): "first non-empty wins, in listed priority"
over a list of tag keys, degrading to the empty string. -/
def first_nonempty (t : Tags) : List String → String
  | [] => ""
  | k :: ks =>
    match tags_get t k with
    | some v => if v = "" then first_nonempty t ks else v
    | none => first_nonempty t ks

/-- Modelled from the spec (§4.5): the address rule — join with ", " the
present non-empty values among the five `addr:*` keys in their fixed order;
if none, fall back to `addr:full`; if that too is absent (or empty), the
empty string. -/
def spec_address (t : Tags) : String :=
  let vals := addr_keys.filterMap fun k => (tags_get t k).filter fun v => v != ""
  if vals = [] then first_nonempty t ["addr:full"]
  else String.intercalate ", " vals

/-- Modelled from the spec (§4.5): the whole Record Normalizer contract,
field by field. -/
def spec_record (el : RawElement) (city_name : String) : ShopRecord :=
  let t := eff_tags el
  { city := city_name, osm_type := el.type, osm_id := el.id,
    name := first_nonempty t ["name"],
    address := spec_address t,
    phone := first_nonempty t ["contact:phone", "phone", "telephone"],
    email := first_nonempty t ["contact:email", "email"],
    website := first_nonempty t ["website", "contact:website"] }

/-- The closed extent of a tile/box as a set of `(lat, lon)` points. -/
def tileSet (t : BBox) : Set (ℚ × ℚ) :=
  Set.Icc t.south t.north ×ˢ Set.Icc t.west t.east

/-- The open interior of a tile/box (boundary excluded), used to state that
tiles do not overlap in area. -/
def tileInterior (t : BBox) : Set (ℚ × ℚ) :=
  Set.Ioo t.south t.north ×ˢ Set.Ioo t.west t.east

/-- The tile `(i, j)` formula of the Tile Partitioner contract. -/
def gridTile (b : BBox) (nx ny i j : Nat) : BBox :=
  ⟨b.south + (i : ℚ) * ((b.north - b.south) / (ny : ℚ)),
   b.west + (j : ℚ) * ((b.east - b.west) / (nx : ℚ)),
   b.south + ((i : ℚ) + 1) * ((b.north - b.south) / (ny : ℚ)),
   b.west + ((j : ℚ) + 1) * ((b.east - b.west) / (nx : ℚ))⟩

/-- The full Tile Partitioner contract for one call: exact count, row-major
placement of the `(i,j)` tile formula, the union of the tiles' extents
reconstructing the box, and no two tiles overlapping in area. -/
def SplitBoxSpec (b : BBox) (nx ny : Nat) : Prop :=
  (split_bbox b nx ny).length = nx * ny ∧
  (∀ i j, i < ny → j < nx →
    (split_bbox b nx ny).get? (i * nx + j) = some (gridTile b nx ny i j)) ∧
  (⋃ t ∈ split_bbox b nx ny, tileSet t) = tileSet b ∧
  (∀ k₁ k₂ t₁ t₂, k₁ ≠ k₂ →
    (split_bbox b nx ny).get? k₁ = some t₁ →
    (split_bbox b nx ny).get? k₂ = some t₂ →
    Disjoint (tileInterior t₁) (tileInterior t₂))

/-! ### Helper lemmas -/

theorem pyOrD_pyOr (a b : Option String) (d : String) :
    pyOrD (pyOr a b) d = pyOrD a (pyOrD b d) := by
  rcases a with _ | s
  · rfl
  · by_cases hs : s = "" <;> simp [pyOr, pyOrD, hs]

theorem pyOrD_empty (a : Option String) : pyOrD a "" = a.getD "" := by
  rcases a with _ | s
  · rfl
  · by_cases hs : s = "" <;> simp [pyOrD, hs]

theorem first_nonempty_cons (t : Tags) (k : String) (ks : List String) :
    first_nonempty t (k :: ks) = pyOrD (tags_get t k) (first_nonempty t ks) := by
  rcases h : tags_get t k with _ | v
  · simp [first_nonempty, pyOrD, h]
  · by_cases hv : v = "" <;> simp [first_nonempty, pyOrD, h, hv]

theorem addr_parts_eq_spec (t : Tags) :
    addr_parts t = addr_keys.filterMap fun k => (tags_get t k).filter fun v => v != "" := by
  unfold addr_parts
  congr 1
  funext k
  rcases h : tags_get t k with _ | v
  · rfl
  · by_cases hv : v = "" <;> simp [Option.filter, hv]

/-! ### Claim theorems: Record Normalizer and Region Resolver -/

/-- C5: for every RawElement and region name, `extract_shop_record` derives
each output field by first-non-empty-wins priority — phone from
`contact:phone`, `phone`, `telephone`; email from `contact:email`, `email`;
website from `website`, `contact:website`; address as the ", "-join of the
present non-empty values among the five `addr:*` keys in fixed order, falling
back to `addr:full` and then to `""`; name from the `name` tag; every absent
chain degrades to the empty string.  In particular tags
`{phone: "A", contact:phone: "B"}` yield `phone = "B"`, and an element with
no address tags yields `address = ""`. -/
theorem extract_shop_record_matches_spec :
    (∀ el city_name, extract_shop_record el city_name = spec_record el city_name) ∧
    (extract_shop_record
      ⟨some "node", some 1, some (some [("phone", "A"), ("contact:phone", "B")])⟩
      "c").phone = "B" ∧
    (extract_shop_record
      ⟨some "node", some 1, some (some [("phone", "A"), ("contact:phone", "B")])⟩
      "c").address = "" := by
  refine ⟨fun el city_name => ?_, by rfl, by rfl⟩
  unfold extract_shop_record spec_record
  simp only [ShopRecord.mk.injEq]
  refine ⟨trivial, trivial, trivial, ?_, ?_, ?_, ?_, ?_⟩
  · -- name
    rw [first_nonempty_cons]
    simp [first_nonempty, pyOrD_empty]
  · -- address
    simp only [spec_address]
    rw [← addr_parts_eq_spec, first_nonempty_cons]
    rcases h : addr_parts (eff_tags el) with _ | ⟨v, vs⟩ <;>
      simp [h, first_nonempty]
  · -- phone
    rw [first_nonempty_cons, first_nonempty_cons, first_nonempty_cons]
    simp [first_nonempty, pyOrD_pyOr]
  · -- email
    rw [first_nonempty_cons, first_nonempty_cons]
    simp [first_nonempty, pyOrD_pyOr]
  · -- website
    rw [first_nonempty_cons, first_nonempty_cons]
    simp [first_nonempty, pyOrD_pyOr]

/-- C10: `extract_shop_record` is total over element dictionaries: an element
whose `tags` key is absent or null yields a record whose five derived fields
are all the empty string, and for every element the record carries the region
name and the element's `type`/`id` verbatim; the output shape is always the
fixed eight-field `ShopRecord` (its last five fields are `String` by type, so
no field is ever null or omitted). -/
theorem extract_shop_record_total :
    ∀ (ty : Option String) (i : Option Int) (city_name : String),
      extract_shop_record ⟨ty, i, none⟩ city_name =
        ⟨city_name, ty, i, "", "", "", "", ""⟩ ∧
      extract_shop_record ⟨ty, i, some none⟩ city_name =
        ⟨city_name, ty, i, "", "", "", "", ""⟩ ∧
      ∀ el : RawElement,
        (extract_shop_record el city_name).city = city_name ∧
        (extract_shop_record el city_name).osm_type = el.type ∧
        (extract_shop_record el city_name).osm_id = el.id :=
  fun _ _ _ => ⟨rfl, rfl, fun _ => ⟨rfl, rfl, rfl⟩⟩

/-- C6: `nominatim_bbox` reads the first hit's `boundingbox` array as
`[south, north, west, east]` (indices 0, 1, 2, 3 — the non-alphabetical
service order), converts the entries to numbers, and returns them reordered
as `(south, west, north, east, display_name)`. -/
theorem nominatim_bbox_field_order :
    ∀ (pfloat : String → ℚ) (b0 b1 b2 b3 : String) (label : String)
      (rest : List NominatimHit),
      nominatim_bbox pfloat
        ({ boundingbox := [b0, b1, b2, b3], display_name := some label } :: rest) =
      .ok (pfloat b0) (pfloat b2) (pfloat b1) (pfloat b3) label :=
  fun _ _ _ _ _ _ _ => rfl

/-- C9: when the geocoding backend returns no match (an empty JSON list), the
Region Resolver fails — `nominatim_bbox` yields its no-match outcome
(`return None` in the source), never a bounding box, and `process_city`
turns this into the failed/abandoned outcome for the region (the `None`
result makes the tuple unpacking raise inside the `try`, which is caught). -/
theorem nominatim_bbox_no_match :
    ∀ pfloat : String → ℚ,
      nominatim_bbox pfloat [] = .noMatch ∧
      (∀ s w n e label, nominatim_bbox pfloat [] ≠ .ok s w n e label) ∧
      ∀ (fetch : Nat → Except String (List RawElement)) (city_name : String),
        process_city false pfloat [] fetch city_name = .failedResolve :=
  fun _ => ⟨rfl, fun _ _ _ _ _ h => by simp [nominatim_bbox] at h, fun _ _ => rfl⟩

/-! ### Claim theorems: Tile Partitioner validation (C8) -/

/-- C8 counterexample: the claim "grid dimensions `nx ≤ 0` or `ny ≤ 0` fail
with `ConfigError`" is false on the code.  `split_bbox` performs no
validation at all: a negative dimension silently yields the empty tile list
(no failure of any kind), and a zero dimension fails with
`ZeroDivisionError` from the step division, not with a `ConfigError`. -/
theorem split_bbox_no_ConfigError :
    split_bbox_py ⟨0, 0, 1, 1⟩ (-1) 1 = .ok [] ∧
    split_bbox_py ⟨0, 0, 1, 1⟩ 0 1 = .error "ZeroDivisionError" := by
  constructor
  · rfl
  · rfl

/-- C8 amended: `split_bbox` has no dimension validation and no `ConfigError`
failure mode; called with `nx ≤ 0` or `ny ≤ 0` it either fails with
`ZeroDivisionError` (a zero dimension, hit by the step division) or silently
returns the empty tile list (a negative dimension); it remains a pure
function with no I/O. -/
theorem split_bbox_py_invalid_dims (b : BBox) (nx ny : Int)
    (h : nx ≤ 0 ∨ ny ≤ 0) :
    split_bbox_py b nx ny = .error "ZeroDivisionError" ∨
    split_bbox_py b nx ny = .ok [] := by
  unfold split_bbox_py
  by_cases hy : ny = 0
  · left; simp [hy]
  by_cases hx : nx = 0
  · left; simp [hx, hy]
  right
  simp only [hx, hy, if_false]
  have : split_bbox b nx.toNat ny.toNat = [] := by
    rcases h with h | h
    · have hx0 : nx.toNat = 0 := Int.toNat_of_nonpos h
      simp [split_bbox, hx0]
    · have hy0 : ny.toNat = 0 := Int.toNat_of_nonpos h
      simp [split_bbox, hy0]
  rw [this]

theorem split_bbox_py_invalid_dims_witness :
    ((-2 : Int) ≤ 0 ∨ (3 : Int) ≤ 0) ∧
    (split_bbox_py ⟨0, 0, 1, 1⟩ (-2) 3 = .error "ZeroDivisionError" ∨
     split_bbox_py ⟨0, 0, 1, 1⟩ (-2) 3 = .ok []) :=
  ⟨Or.inl (by decide),
   split_bbox_py_invalid_dims ⟨0, 0, 1, 1⟩ (-2) 3 (Or.inl (by decide))⟩

/-! ### Claim theorems: Element Aggregator dedupe (C3) -/

theorem dedupe_go_sublist (seen : List (Option String × Option Int)) :
    ∀ l : List RawElement, (dedupe_go seen l).Sublist l := by
  intro l
  induction l generalizing seen with
  | nil => simp [dedupe_go]
  | cons el rest ih =>
    unfold dedupe_go
    by_cases h : osm_key el ∈ seen
    · rw [if_pos h]
      exact (ih seen).cons el
    · rw [if_neg h]
      exact (ih (osm_key el :: seen)).cons₂ el

theorem dedupe_go_key_avoids (seen : List (Option String × Option Int)) :
    ∀ (l : List RawElement) (k), k ∈ seen →
      ∀ e ∈ dedupe_go seen l, osm_key e ≠ k := by
  intro l
  induction l generalizing seen with
  | nil => intro k _ e he; simp [dedupe_go] at he
  | cons el rest ih =>
    intro k hk e he
    unfold dedupe_go at he
    by_cases h : osm_key el ∈ seen
    · rw [if_pos h] at he
      exact ih seen k hk e he
    · rw [if_neg h] at he
      rcases List.mem_cons.mp he with he | he
      · subst he
        exact fun hek => h (hek ▸ hk)
      · exact ih (osm_key el :: seen) k (List.mem_cons_of_mem _ hk) e he

theorem dedupe_go_pairwise (seen : List (Option String × Option Int)) :
    ∀ l : List RawElement,
      (dedupe_go seen l).Pairwise fun a b => osm_key a ≠ osm_key b := by
  intro l
  induction l generalizing seen with
  | nil => simp [dedupe_go]
  | cons el rest ih =>
    unfold dedupe_go
    by_cases h : osm_key el ∈ seen
    · rw [if_pos h]
      exact ih seen
    · rw [if_neg h]
      refine List.Pairwise.cons (fun e he => ?_) (ih (osm_key el :: seen))
      have hne := dedupe_go_key_avoids (osm_key el :: seen) rest (osm_key el)
        (List.mem_cons_self _ _) e he
      exact fun hh => hne (hh ▸ rfl)

theorem dedupe_go_find (seen : List (Option String × Option Int)) :
    ∀ (l : List RawElement) (k), k ∉ seen →
      (dedupe_go seen l).find? (fun e => decide (osm_key e = k)) =
        l.find? (fun e => decide (osm_key e = k)) := by
  intro l
  induction l generalizing seen with
  | nil => intro k _; rfl
  | cons el rest ih =>
    intro k hk
    unfold dedupe_go
    by_cases h : osm_key el ∈ seen
    · rw [if_pos h]
      have hne : ¬ osm_key el = k := fun he => hk (he ▸ h)
      rw [ih seen k hk, List.find?_cons_of_neg _ (by simpa using hne)]
    · rw [if_neg h]
      by_cases he : osm_key el = k
      · rw [List.find?_cons_of_pos _ (by simpa using he),
            List.find?_cons_of_pos _ (by simpa using he)]
      · rw [List.find?_cons_of_neg _ (by simpa using he),
            List.find?_cons_of_neg _ (by simpa using he)]
        refine ih (osm_key el :: seen) k fun hmem => ?_
        rcases List.mem_cons.mp hmem with hmem | hmem
        · exact he hmem.symm
        · exact hk hmem

/-- C3: `dedupe_elements` returns a list in which no two elements share the
`(type, id)` key; the output is a sublist of the input (so the relative
order of kept elements is preserved and every kept element, tags included,
is an input element); and for every key the kept element is exactly the
first occurrence of that key in scan order (so later duplicates' tags are
discarded). -/
theorem dedupe_elements_spec (l : List RawElement) :
    (dedupe_elements l).Pairwise (fun a b => osm_key a ≠ osm_key b) ∧
    (dedupe_elements l).Sublist l ∧
    ∀ k, (dedupe_elements l).find? (fun e => decide (osm_key e = k)) =
      l.find? (fun e => decide (osm_key e = k)) :=
  ⟨dedupe_go_pairwise [] l, dedupe_go_sublist [] l,
   fun k => dedupe_go_find [] l k (by simp)⟩

/-! ### Claim theorems: Resilient Query Client (C1, C2) -/

theorem try_attempts_all_error {ε α : Type} (respm : Nat → Except ε α)
    (errf : Nat → ε) :
    ∀ (l : List Nat) (last : Option ε), (∀ a ∈ l, respm a = .error (errf a)) →
      try_attempts respm l last =
        (none, l.foldl (fun _ a => some (errf a)) last, l) := by
  intro l
  induction l with
  | nil => intro last _; rfl
  | cons a rest ih =>
    intro last h
    unfold try_attempts
    rw [h a (List.mem_cons_self _ _)]
    show (let r := try_attempts respm rest (some (errf a))
          (r.1, r.2.1, a :: r.2.2)) = _
    rw [ih (some (errf a)) fun b hb => h b (List.mem_cons_of_mem _ hb)]
    rfl

theorem range'_foldl_err {ε : Type} (errf : Nat → ε) (k : Nat) (last : Option ε) :
    (List.range' 1 (k + 1)).foldl (fun _ a => some (errf a)) last =
      some (errf (k + 1)) := by
  rw [List.range'_1_concat, List.foldl_append]
  simp [Nat.add_comm]

theorem query_mirrors_cons_all_error {μ ε α : Type} (resp : μ → Nat → Except ε α)
    (m : μ) (ms : List μ) (k : Nat) (last : Option ε) (errf : Nat → ε)
    (h : ∀ a, resp m a = .error (errf a)) :
    query_mirrors resp (k + 1) (m :: ms) last =
      ((query_mirrors resp (k + 1) ms (some (errf (k + 1)))).1,
       ((List.range' 1 (k + 1)).map fun a => (m, a)) ++
         (query_mirrors resp (k + 1) ms (some (errf (k + 1)))).2) := by
  have hta := try_attempts_all_error (resp m) errf (List.range' 1 (k + 1)) last
    fun a _ => h a
  cases ms with
  | nil =>
    unfold query_mirrors
    rw [hta, range'_foldl_err]
    rfl
  | cons m2 ms2 =>
    unfold query_mirrors
    rw [hta, range'_foldl_err]
    rfl

theorem query_mirrors_cons_first_ok {μ ε α : Type} (resp : μ → Nat → Except ε α)
    (m : μ) (ms : List μ) (k : Nat) (last : Option ε) (v : α)
    (h : resp m 1 = .ok v) :
    query_mirrors resp (k + 1) (m :: ms) last = (.ok v, [(m, 1)]) := by
  unfold query_mirrors
  rw [List.range'_succ]
  unfold try_attempts
  rw [h]
  rfl

/-- C1: mirrors are tried in their fixed priority order with up to
`max_retries` attempts per mirror, the attempt counter restarting at 1 on the
next mirror, and the first successful response short-circuits: when the
first mirror errors on every attempt and the second always succeeds, the
result is the second mirror's response, and the recorded trace is exactly
attempts `1..max_retries` on mirror 1 followed by the single attempt
`(mirror 2, 1)` — so mirror 1 is attempted exactly `max_retries` times and
no later mirror or attempt is tried. -/
theorem query_mirrors_failover {μ ε α : Type} (resp : μ → Nat → Except ε α)
    (m1 m2 : μ) (ms : List μ) (max_retries : Nat) (errf : Nat → ε) (v : α)
    (hR : 1 ≤ max_retries)
    (h1 : ∀ a, resp m1 a = .error (errf a))
    (h2 : ∀ a, resp m2 a = .ok v) :
    (query_mirrors resp max_retries (m1 :: m2 :: ms) none).1 = .ok v ∧
    (query_mirrors resp max_retries (m1 :: m2 :: ms) none).2 =
      ((List.range' 1 max_retries).map fun a => (m1, a)) ++ [(m2, 1)] := by
  obtain ⟨k, rfl⟩ : ∃ k, max_retries = k + 1 :=
    ⟨max_retries - 1, (Nat.succ_pred_eq_of_pos hR).symm⟩
  rw [query_mirrors_cons_all_error resp m1 (m2 :: ms) k none errf h1,
      query_mirrors_cons_first_ok resp m2 ms k _ v (h2 1)]
  exact ⟨rfl, rfl⟩

theorem query_mirrors_failover_witness :
    1 ≤ MAX_RETRIES ∧
    (∀ a, (fun (m a : Nat) => if m = 0 then (.error a : Except Nat Nat) else .ok 99) 0 a = .error a) ∧
    (∀ a, (fun (m a : Nat) => if m = 0 then (.error a : Except Nat Nat) else .ok 99) 1 a = .ok 99) ∧
    (query_mirrors (fun (m a : Nat) => if m = 0 then (.error a : Except Nat Nat) else .ok 99)
      MAX_RETRIES [0, 1] none).1 = .ok 99 ∧
    (query_mirrors (fun (m a : Nat) => if m = 0 then (.error a : Except Nat Nat) else .ok 99)
      MAX_RETRIES [0, 1] none).2 =
      ((List.range' 1 MAX_RETRIES).map fun a => ((0 : Nat), a)) ++ [(1, 1)] := by
  refine ⟨by decide, fun a => rfl, fun a => rfl, ?_⟩
  exact query_mirrors_failover (fun m a => if m = 0 then .error a else .ok 99)
    0 1 [] MAX_RETRIES (fun a => a) 99 (by decide) (fun a => rfl) (fun a => rfl)

theorem query_mirrors_all_error_fst {μ ε α : Type} (resp : μ → Nat → Except ε α)
    (k : Nat) (errf : μ → Nat → ε)
    (h : ∀ m a, resp m a = .error (errf m a)) :
    ∀ (ms' : List μ) (mlast : μ) (last : Option ε),
      (query_mirrors resp (k + 1) (ms' ++ [mlast]) last).1 =
        .error (some (errf mlast (k + 1))) := by
  intro ms'
  induction ms' with
  | nil =>
    intro mlast last
    rw [List.nil_append,
        query_mirrors_cons_all_error resp mlast [] k last (errf mlast) (h mlast)]
    rfl
  | cons m ms' ih =>
    intro mlast last
    rw [List.cons_append,
        query_mirrors_cons_all_error resp m (ms' ++ [mlast]) k last (errf m) (h m)]
    exact ih mlast _

/-- C2: if every attempt on every mirror errors, the tile fetch fails — the
client raises its all-mirrors-exhausted error whose cause is the error of the
last attempt (`max_retries`) on the last mirror, i.e. the most recent
underlying error, and no element payload is returned. -/
theorem query_mirrors_exhausted {μ ε α : Type} (resp : μ → Nat → Except ε α)
    (max_retries : Nat) (errf : μ → Nat → ε) (ms' : List μ) (mlast : μ)
    (hR : 1 ≤ max_retries) (h : ∀ m a, resp m a = .error (errf m a)) :
    (query_mirrors resp max_retries (ms' ++ [mlast]) none).1 =
      .error (some (errf mlast max_retries)) ∧
    ∀ v, (query_mirrors resp max_retries (ms' ++ [mlast]) none).1 ≠ .ok v := by
  obtain ⟨k, rfl⟩ : ∃ k, max_retries = k + 1 :=
    ⟨max_retries - 1, (Nat.succ_pred_eq_of_pos hR).symm⟩
  have hfst := query_mirrors_all_error_fst resp k errf h ms' mlast none
  exact ⟨hfst, fun v hv => by rw [hfst] at hv; exact Except.noConfusion hv⟩

theorem query_mirrors_exhausted_witness :
    1 ≤ MAX_RETRIES ∧
    (∀ m a, (fun (m a : Nat) => (.error (m, a) : Except (Nat × Nat) Nat)) m a = .error (m, a)) ∧
    (query_mirrors (fun (m a : Nat) => (.error (m, a) : Except (Nat × Nat) Nat))
      MAX_RETRIES ([0] ++ [1]) none).1 = .error (some (1, MAX_RETRIES)) ∧
    ∀ v, (query_mirrors (fun (m a : Nat) => (.error (m, a) : Except (Nat × Nat) Nat))
      MAX_RETRIES ([0] ++ [1]) none).1 ≠ .ok v := by
  refine ⟨by decide, fun m a => rfl, ?_⟩
  exact query_mirrors_exhausted (fun m a => .error (m, a)) MAX_RETRIES
    (fun m a => (m, a)) [0] 1 (by decide) (fun m a => rfl)

/-! ### Claim theorems: Pipeline Orchestrator empty-result path (C7) -/

/-- C7: when aggregation yields zero records, the region's terminal outcome
is the diagnostic variant carrying the raw (deduplicated) element list and
the failed-tile list — no tabular row list is emitted — and this outcome is
observably distinct from the normal `done` outcome for every possible row
list. -/
theorem process_city_empty_records
    (pfloat : String → ℚ) (geo : List NominatimHit)
    (fetch : Nat → Except String (List RawElement)) (city_name : String)
    (s w n e : ℚ) (label : String)
    (hres : nominatim_bbox pfloat geo = .ok s w n e label)
    (hempty :
      (dedupe_elements
        (fetch_tiles fetch (split_bbox ⟨s, w, n, e⟩ TILE_NX TILE_NY).enum).1).map
        (fun el => extract_shop_record el city_name) = []) :
    process_city false pfloat geo fetch city_name =
      .doneEmpty
        (dedupe_elements
          (fetch_tiles fetch (split_bbox ⟨s, w, n, e⟩ TILE_NX TILE_NY).enum).1)
        (fetch_tiles fetch (split_bbox ⟨s, w, n, e⟩ TILE_NX TILE_NY).enum).2 ∧
    ∀ rows, process_city false pfloat geo fetch city_name ≠ .done rows := by
  have h1 : process_city false pfloat geo fetch city_name =
      (let tiles := split_bbox ⟨s, w, n, e⟩ TILE_NX TILE_NY
       let fr := fetch_tiles fetch tiles.enum
       let all_elements := dedupe_elements fr.1
       let records := all_elements.map fun el => extract_shop_record el city_name
       if records.isEmpty then CityOutcome.doneEmpty all_elements fr.2
       else .done records) := by
    unfold process_city
    rw [hres]
    rfl
  have h2 : process_city false pfloat geo fetch city_name =
      .doneEmpty
        (dedupe_elements
          (fetch_tiles fetch (split_bbox ⟨s, w, n, e⟩ TILE_NX TILE_NY).enum).1)
        (fetch_tiles fetch (split_bbox ⟨s, w, n, e⟩ TILE_NX TILE_NY).enum).2 := by
    rw [h1]
    simp only [hempty, List.isEmpty_nil, if_true]
  exact ⟨h2, fun rows hrow => by
    rw [h2] at hrow
    exact CityOutcome.noConfusion hrow⟩

theorem process_city_empty_records_witness :
    nominatim_bbox (fun _ => (0 : ℚ)) [⟨["0", "0", "0", "0"], some "L"⟩] =
      .ok 0 0 0 0 "L" ∧
    (dedupe_elements
      (fetch_tiles (fun _ => (.error "boom" : Except String (List RawElement)))
        (split_bbox ⟨0, 0, 0, 0⟩ TILE_NX TILE_NY).enum).1).map
      (fun el => extract_shop_record el "Qom") = [] ∧
    process_city false (fun _ => (0 : ℚ)) [⟨["0", "0", "0", "0"], some "L"⟩]
      (fun _ => (.error "boom" : Except String (List RawElement))) "Qom" =
      .doneEmpty
        (dedupe_elements
          (fetch_tiles (fun _ => (.error "boom" : Except String (List RawElement)))
            (split_bbox ⟨0, 0, 0, 0⟩ TILE_NX TILE_NY).enum).1)
        (fetch_tiles (fun _ => (.error "boom" : Except String (List RawElement)))
          (split_bbox ⟨0, 0, 0, 0⟩ TILE_NX TILE_NY).enum).2 ∧
    ∀ rows, process_city false (fun _ => (0 : ℚ)) [⟨["0", "0", "0", "0"], some "L"⟩]
      (fun _ => (.error "boom" : Except String (List RawElement))) "Qom" ≠
        .done rows := by
  refine ⟨rfl, rfl, ?_, ?_⟩
  · exact (process_city_empty_records (fun _ => (0 : ℚ))
      [⟨["0", "0", "0", "0"], some "L"⟩]
      (fun _ => (.error "boom" : Except String (List RawElement))) "Qom"
      0 0 0 0 "L" rfl rfl).1
  · exact (process_city_empty_records (fun _ => (0 : ℚ))
      [⟨["0", "0", "0", "0"], some "L"⟩]
      (fun _ => (.error "boom" : Except String (List RawElement))) "Qom"
      0 0 0 0 "L" rfl rfl).2

/-! ### Claim theorems: Tile Partitioner contract (C4) -/

theorem split_bbox_eq_grid (b : BBox) (nx ny : Nat) :
    split_bbox b nx ny =
      (List.range ny).flatMap fun i => (List.range nx).map fun j =>
        gridTile b nx ny i j := by
  rfl

theorem flat_grid_length {α : Type} (nx : Nat) (f : Nat → Nat → α) :
    ∀ ny, ((List.range ny).flatMap fun i => (List.range nx).map (f i)).length =
      ny * nx := by
  intro ny
  induction ny with
  | zero => simp
  | succ m ih =>
    rw [List.range_succ, List.flatMap_append]
    simp [ih, Nat.succ_mul]

theorem flat_grid_get {α : Type} (nx : Nat) (f : Nat → Nat → α) :
    ∀ ny i j, i < ny → j < nx →
      ((List.range ny).flatMap fun i => (List.range nx).map (f i)).get?
        (i * nx + j) = some (f i j) := by
  intro ny
  induction ny with
  | zero => intro i j hi _; exact absurd hi (Nat.not_lt_zero i)
  | succ m ih =>
    intro i j hi hj
    rw [List.range_succ, List.flatMap_append]
    simp only [List.flatMap_cons, List.flatMap_nil, List.append_nil]
    rcases Nat.lt_or_ge i m with him | him
    · rw [List.get?_append]
      · exact ih i j him hj
      · rw [flat_grid_length nx f m]
        have h1 : i * nx + j < (i + 1) * nx := by
          have hs : (i + 1) * nx = i * nx + nx := by ring
          omega
        have h2 : (i + 1) * nx ≤ m * nx := Nat.mul_le_mul_right nx him
        omega
    · have hi' : i = m := by omega
      subst hi'
      have hge : ((List.range i).flatMap fun i => (List.range nx).map (f i)).length ≤
          i * nx + j := by
        rw [flat_grid_length nx f i]
        omega
      rw [List.get?_append_right hge, flat_grid_length nx f i]
      have hj' : i * nx + j - i * nx = j := by omega
      rw [hj', List.get?_map, List.get?_eq_getElem?, List.getElem?_range hj]
      rfl

theorem exists_cell (a step x : ℚ) (hstep : 0 ≤ step) (h1 : a ≤ x) :
    ∀ n : Nat, 1 ≤ n → x ≤ a + (n : ℚ) * step →
      ∃ i : Nat, i < n ∧ a + (i : ℚ) * step ≤ x ∧ x ≤ a + ((i : ℚ) + 1) * step := by
  intro n
  induction n with
  | zero => intro h; exact absurd h (by omega)
  | succ k ih =>
    intro _ h2
    by_cases hx : x ≤ a + (k : ℚ) * step
    · rcases Nat.eq_zero_or_pos k with hk | hk
      · subst hk
        refine ⟨0, Nat.one_pos, by simpa using h1, ?_⟩
        have hx' : x ≤ a := by simpa using hx
        push_cast
        linarith
      · obtain ⟨i, hi, hl, hr⟩ := ih hk hx
        exact ⟨i, by omega, hl, hr⟩
    · push_neg at hx
      refine ⟨k, by omega, le_of_lt hx, ?_⟩
      push_cast at h2
      linarith

theorem cells_interior_disjoint (a step : ℚ) (hstep : 0 ≤ step) (p q : Nat)
    (hpq : p ≠ q) (x : ℚ)
    (hp : a + (p : ℚ) * step < x ∧ x < a + ((p : ℚ) + 1) * step)
    (hq : a + (q : ℚ) * step < x ∧ x < a + ((q : ℚ) + 1) * step) : False := by
  rcases Nat.lt_or_ge p q with h | h
  · have hle : ((p : ℚ) + 1) ≤ (q : ℚ) := by exact_mod_cast Nat.succ_le_of_lt h
    have hm := mul_le_mul_of_nonneg_right hle hstep
    linarith [hp.2, hq.1]
  · have h' : q < p := by omega
    have hle : ((q : ℚ) + 1) ≤ (p : ℚ) := by exact_mod_cast Nat.succ_le_of_lt h'
    have hm := mul_le_mul_of_nonneg_right hle hstep
    linarith [hq.2, hp.1]

theorem mem_split_bbox (b : BBox) (nx ny : Nat) (t : BBox) :
    t ∈ split_bbox b nx ny ↔
      ∃ i, i < ny ∧ ∃ j, j < nx ∧ t = gridTile b nx ny i j := by
  rw [split_bbox_eq_grid]
  simp only [List.mem_flatMap, List.mem_map, List.mem_range]
  constructor
  · rintro ⟨i, hi, j, hj, rfl⟩
    exact ⟨i, hi, j, hj, rfl⟩
  · rintro ⟨i, hi, j, hj, rfl⟩
    exact ⟨i, hi, j, hj, rfl⟩

/-- C4: for every box with `south < north`, `west < east` and grid dimensions
`nx, ny ≥ 1`, `split_bbox` returns exactly `nx*ny` tiles in row-major order
(tile `(i,j)` at index `i*nx + j` with the contract's step formulas), the
union of the tiles' extents reconstructs the input box exactly (in the ideal
rational arithmetic), and no two tiles overlap in area (their open interiors
are pairwise disjoint). -/
theorem split_bbox_partition (b : BBox) (nx ny : Nat)
    (hsn : b.south < b.north) (hwe : b.west < b.east)
    (hnx : 1 ≤ nx) (hny : 1 ≤ ny) :
    SplitBoxSpec b nx ny := by
  have hnxQ : (0 : ℚ) < (nx : ℚ) := by exact_mod_cast Nat.lt_of_lt_of_le Nat.zero_lt_one hnx
  have hnyQ : (0 : ℚ) < (ny : ℚ) := by exact_mod_cast Nat.lt_of_lt_of_le Nat.zero_lt_one hny
  have hLpos : 0 < (b.north - b.south) / (ny : ℚ) := div_pos (by linarith) hnyQ
  have hMpos : 0 < (b.east - b.west) / (nx : ℚ) := div_pos (by linarith) hnxQ
  have hnyL : (ny : ℚ) * ((b.north - b.south) / (ny : ℚ)) = b.north - b.south := by
    field_simp
  have hnxM : (nx : ℚ) * ((b.east - b.west) / (nx : ℚ)) = b.east - b.west := by
    field_simp
  refine ⟨?_, ?_, ?_, ?_⟩
  · rw [split_bbox_eq_grid, flat_grid_length]
    exact Nat.mul_comm ny nx
  · intro i j hi hj
    rw [split_bbox_eq_grid]
    exact flat_grid_get nx (fun i j => gridTile b nx ny i j) ny i j hi hj
  · ext p
    obtain ⟨lat, lon⟩ := p
    simp only [Set.mem_iUnion, exists_prop]
    constructor
    · rintro ⟨t, ht, hpt⟩
      obtain ⟨i, hi, j, hj, rfl⟩ := (mem_split_bbox b nx ny t).mp ht
      simp only [tileSet, gridTile, Set.mem_prod, Set.mem_Icc] at hpt ⊢
      obtain ⟨⟨hl1, hl2⟩, hl3, hl4⟩ := hpt
      have hiQ : (0 : ℚ) ≤ (i : ℚ) := Nat.cast_nonneg i
      have hjQ : (0 : ℚ) ≤ (j : ℚ) := Nat.cast_nonneg j
      have hi1 : ((i : ℚ) + 1) ≤ (ny : ℚ) := by exact_mod_cast Nat.succ_le_of_lt hi
      have hj1 : ((j : ℚ) + 1) ≤ (nx : ℚ) := by exact_mod_cast Nat.succ_le_of_lt hj
      have hiL := mul_le_mul_of_nonneg_right hi1 hLpos.le
      have hjM := mul_le_mul_of_nonneg_right hj1 hMpos.le
      have hiL0 := mul_nonneg hiQ hLpos.le
      have hjM0 := mul_nonneg hjQ hMpos.le
      constructor
      · constructor <;> linarith [hnyL]
      · constructor <;> linarith [hnxM]
    · simp only [tileSet, Set.mem_prod, Set.mem_Icc]
      rintro ⟨⟨hs1, hs2⟩, hw1, hw2⟩
      obtain ⟨i, hi, hil, hir⟩ :=
        exists_cell b.south ((b.north - b.south) / (ny : ℚ)) lat hLpos.le hs1 ny hny
          (by linarith [hnyL])
      obtain ⟨j, hj, hjl, hjr⟩ :=
        exists_cell b.west ((b.east - b.west) / (nx : ℚ)) lon hMpos.le hw1 nx hnx
          (by linarith [hnxM])
      refine ⟨gridTile b nx ny i j,
        (mem_split_bbox b nx ny _).mpr ⟨i, hi, j, hj, rfl⟩, ?_⟩
      simp only [tileSet, gridTile, Set.mem_prod, Set.mem_Icc]
      exact ⟨⟨hil, hir⟩, hjl, hjr⟩
  · intro k1 k2 t1 t2 hk h1 h2
    have hnx0 : 0 < nx := by omega
    have hget : ∀ k t, (split_bbox b nx ny).get? k = some t →
        ∃ i j, i < ny ∧ j < nx ∧ k = i * nx + j ∧ t = gridTile b nx ny i j := by
      intro k t hkt
      have hsome : k < (split_bbox b nx ny).length := by
        by_contra hge
        push_neg at hge
        rw [List.get?_eq_getElem?, List.getElem?_eq_none hge] at hkt
        exact Option.noConfusion hkt
      have hlen : k < ny * nx := by
        rw [split_bbox_eq_grid, flat_grid_length] at hsome
        exact hsome
      have hidiv : k / nx < ny := by
        rw [Nat.div_lt_iff_lt_mul hnx0]
        exact hlen
      have hmod : k % nx < nx := Nat.mod_lt k hnx0
      have hksplit : k = (k / nx) * nx + k % nx := by
        have hdm := Nat.div_add_mod k nx
        have hc : (k / nx) * nx = nx * (k / nx) := Nat.mul_comm _ _
        omega
      have hg := flat_grid_get nx (fun i j => gridTile b nx ny i j) ny
        (k / nx) (k % nx) hidiv hmod
      rw [split_bbox_eq_grid] at hkt
      rw [← hksplit] at hg
      rw [hkt] at hg
      exact ⟨k / nx, k % nx, hidiv, hmod, hksplit, by exact Option.some.inj hg⟩
    obtain ⟨i1, j1, hi1, hj1, hk1, ht1⟩ := hget k1 t1 h1
    obtain ⟨i2, j2, hi2, hj2, hk2, ht2⟩ := hget k2 t2 h2
    subst ht1
    subst ht2
    have hij : i1 ≠ i2 ∨ j1 ≠ j2 := by
      by_contra hcon
      push_neg at hcon
      obtain ⟨e1, e2⟩ := hcon
      subst e1
      subst e2
      exact hk (hk1.trans hk2.symm)
    rw [Set.disjoint_left]
    rintro ⟨lat, lon⟩ hm1 hm2
    simp only [tileInterior, gridTile, Set.mem_prod, Set.mem_Ioo] at hm1 hm2
    rcases hij with hij | hij
    · exact cells_interior_disjoint b.south ((b.north - b.south) / (ny : ℚ))
        hLpos.le i1 i2 hij lat ⟨hm1.1.1, hm1.1.2⟩ ⟨hm2.1.1, hm2.1.2⟩
    · exact cells_interior_disjoint b.west ((b.east - b.west) / (nx : ℚ))
        hMpos.le j1 j2 hij lon ⟨hm1.2.1, hm1.2.2⟩ ⟨hm2.2.1, hm2.2.2⟩

theorem split_bbox_partition_witness :
    (0 : ℚ) < 1 ∧ (0 : ℚ) < 1 ∧ 1 ≤ 1 ∧ 1 ≤ 1 ∧
    SplitBoxSpec ⟨0, 0, 1, 1⟩ 1 1 :=
  ⟨by norm_num, by norm_num, le_refl 1, le_refl 1,
   split_bbox_partition ⟨0, 0, 1, 1⟩ 1 1 (by norm_num) (by norm_num)
     (le_refl 1) (le_refl 1)⟩
